import Mathlib

/-!
Formal model of `jha_streamlit_app_v2.py`, the single source file of the
JHA dashboard: workbook normalization (forward-fill of the division
column), the filter pipeline (division equality, risk equality, free-text
search), the chart aggregation, the PDF report builder, and the row-detail
view.  Cells are modelled as `Option String` (a `none` cell is a pandas
NaN); Python's `str()` renders NaN as the string `"nan"`, which the model
mirrors in `strOfCell`.
-/

/-- A spreadsheet cell: `none` models a missing value (pandas NaN). -/
abbrev Cell := Option String

/-- A row of a sheet, listing the cells in column order. -/
abbrev Row := List Cell

/-- A sheet: ordered column names and rows (`df.columns`, `df` rows). -/
structure Table where
  cols : List String
  rows : List Row
deriving DecidableEq

/-- `beginsWith needle hay`: `needle` is an initial segment of `hay`. -/
def beginsWith : List Char → List Char → Bool
  | [], _ => true
  | _ :: _, [] => false
  | a :: as, b :: bs => a == b && beginsWith as bs

/-- `containsSeq needle hay`: `needle` occurs contiguously inside `hay`. -/
def containsSeq (needle : List Char) : List Char → Bool
  | [] => beginsWith needle []
  | b :: bs => beginsWith needle (b :: bs) || containsSeq needle bs

/-- Models the Python expression `sub in hay` on strings. -/
def strContains (hay sub : String) : Bool :=
  containsSeq sub.data hay.data

/-- Models Python `s.lower()` (character-wise lowering). -/
def strLower (s : String) : String :=
  String.mk (s.data.map Char.toLower)

/-- Models Python `s.strip()`: drop whitespace at both ends. -/
def strTrim (s : String) : String :=
  String.mk (((s.data.dropWhile Char.isWhitespace).reverse.dropWhile
    Char.isWhitespace).reverse)

/-- Models Python `str(v)` on a cell: a NaN prints as `"nan"`. -/
def strOfCell : Cell → String
  | none => "nan"
  | some s => s

/-- Models `next((c for c in df.columns if kw in c.lower()), None)`:
the first column whose lower-cased name contains `kw`. -/
def findColumn (kw : String) (cols : List String) : Option String :=
  cols.find? (fun c => strContains (strLower c) kw)

/-- Models `df[name]` on one row: the cell under column `name`. -/
def cellAt (cols : List String) (name : String) (r : Row) : Cell :=
  r.getD (cols.indexOf name) none

/-- Forward-fill worker: `last` is the nearest preceding non-blank value
(or `none` when every preceding cell is blank). -/
def ffillAux (last : Cell) : List Cell → List Cell
  | [] => []
  | some v :: rest => some v :: ffillAux (some v) rest
  | none :: rest => last :: ffillAux last rest

/-- Models `df[div_col].ffill()` on one column: every blank cell inherits
the nearest preceding non-blank value; leading blanks stay blank. -/
def ffill (l : List Cell) : List Cell :=
  ffillAux none l

/-- The column at index `i`, read off every row. -/
def columnAt (i : Nat) (rows : List Row) : List Cell :=
  rows.map (fun r => r.getD i none)

/-- Write `vals` back as column `i` (models `df[div_col] = ...`). -/
def setColumnAt (i : Nat) (vals : List Cell) (rows : List Row) : List Row :=
  List.zipWith (fun r v => r.set i v) rows vals

/-- Models the per-sheet body of `load_workbook` (lines 30-35): trim the
column headers, detect a division-like column, and forward-fill it. -/
def normalizeSheet (t : Table) : Table :=
  let cols := t.cols.map strTrim
  match findColumn "division" cols with
  | some name =>
      { cols := cols
        rows := setColumnAt (cols.indexOf name)
          (ffill (columnAt (cols.indexOf name) t.rows)) t.rows }
  | none => { cols := cols, rows := t.rows }

/-- The sidebar filter inputs: division selection `sel_div`, risk
selection `sel_risk`, free-text query `search_q`. -/
structure Criteria where
  selDiv : String
  selRisk : String
  query : String
deriving DecidableEq

/-- Models `if col and sel != "All": filtered = filtered[filtered[col].astype(str) == str(sel)]`
(lines 121-124), one equality filter stage. -/
def eqFilter (colOpt : Option String) (sel : String) (cols : List String)
    (rows : List Row) : List Row :=
  match colOpt with
  | some name =>
      if sel ≠ "All" then
        rows.filter (fun r => strOfCell (cellAt cols name r) == sel)
      else rows
  | none => rows

/-- Python's regex metacharacters (`re` special characters); `\x7b` and
`\x7d` are the curly braces. -/
def pyMetaChars : List Char :=
  ['.', '\\', '[', ']', '(', ')', '*', '+', '?', '|', '^', '$', '\x7b', '\x7d']

/-- One atom of the modelled regex fragment: a literal character, or the
`.` wildcard. -/
inductive RegexAtom where
  | lit (c : Char)
  | dot
deriving DecidableEq

/-- `lit c` matches exactly `c`; Python's `.` matches any character other
than a newline (no DOTALL flag at line 127). -/
def atomMatches : RegexAtom → Char → Bool
  | .lit a, c => a == c
  | .dot, c => c != '\n'

/-- The pattern matches an initial segment of `s`, atom by atom. -/
def seqMatchesAt : List RegexAtom → List Char → Bool
  | [], _ => true
  | _ :: _, [] => false
  | a :: as, c :: cs => atomMatches a c && seqMatchesAt as cs

/-- Models `re.search` for the fragment: the pattern matches starting at
some position of `s`. -/
def reSearch (p : List RegexAtom) : List Char → Bool
  | [] => seqMatchesAt p []
  | c :: cs => seqMatchesAt p (c :: cs) || reSearch p cs

/-- Parse one pattern character: `.` is the wildcard, any other
metacharacter (quantifier, class, group, escape, anchor, brace) is
outside the modelled fragment, and everything else is a literal. -/
def parseAtom (c : Char) : Option RegexAtom :=
  if c = '.' then some RegexAtom.dot
  else if c ∈ pyMetaChars then none
  else some (RegexAtom.lit c)

/-- Parse a pattern as a sequence of atoms; `none` when the pattern uses
regex syntax beyond the literal-and-wildcard fragment. -/
def parsePattern : List Char → Option (List RegexAtom)
  | [] => some []
  | c :: cs =>
    match parseAtom c, parsePattern cs with
    | some a, some as => some (a :: as)
    | _, _ => none

/-- Models `hay` matching the pattern `pat` under `Series.str.contains`,
whose default is `regex=True`: the pattern is applied as a regular
expression via `re.search`, not as a literal substring.  Only patterns
made of literal characters and the `.` wildcard are modelled; a pattern
using other metacharacters maps to `none` and is treated as a non-match
here — Python would apply full regex semantics (or raise `re.error` for
an invalid pattern), and no theorem below asserts anything about such
patterns. -/
def reContains (hay pat : String) : Bool :=
  match parsePattern pat.data with
  | some p => reSearch p hay.data
  | none => false

/-- Models lines 125-128: when `search_q` is non-empty, keep rows where
the lower-cased query, applied as a regular expression
(`.str.contains(q, na=False)`, default `regex=True`), matches somewhere
in the cell's lower-cased string form. -/
def queryFilter (search : String) (rows : List Row) : List Row :=
  if search ≠ "" then
    rows.filter (fun r =>
      r.any (fun c => reContains (strLower (strOfCell c)) (strLower search)))
  else rows

/-- The whole filter pipeline of lines 102-128: detect the division and
risk columns on the active sheet, then apply the division stage, the risk
stage, and the free-text stage in that order, each on the previous
stage's output. -/
def filterEngine (cr : Criteria) (t : Table) : Table :=
  { cols := t.cols
    rows :=
      queryFilter cr.query
        (eqFilter (findColumn "risk" t.cols) cr.selRisk t.cols
          (eqFilter (findColumn "division" t.cols) cr.selDiv t.cols t.rows)) }

/-- Models `fillna('Unknown')` on one cell. -/
def fillUnknown : Cell → String
  | none => "Unknown"
  | some s => s

/-- Insert into a count-descending list, keeping descending order. -/
def insertDesc {α : Type} (x : α × Nat) : List (α × Nat) → List (α × Nat)
  | [] => [x]
  | y :: ys => if y.2 < x.2 then x :: y :: ys else y :: insertDesc x ys

/-- Sort entries by count, largest first (`value_counts` sorts so). -/
def sortByCountDesc {α : Type} : List (α × Nat) → List (α × Nat)
  | [] => []
  | x :: xs => insertDesc x (sortByCountDesc xs)

/-- Models `series.value_counts()`: one entry per distinct value with its
number of occurrences, ordered by descending count. -/
def valueCounts {α : Type} [DecidableEq α] (l : List α) : List (α × Nat) :=
  sortByCountDesc (l.dedup.map (fun v => (v, l.count v)))

/-- The division bar-chart data of lines 176-178:
`df[division_col].fillna('Unknown').value_counts()` over the full sheet. -/
def figDiv (df : Table) : Option (List (String × Nat)) :=
  match findColumn "division" df.cols with
  | some name =>
      some (valueCounts
        ((columnAt (df.cols.indexOf name) df.rows).map fillUnknown))
  | none => none

/-- The risk pie-chart data of lines 181-184, over the full sheet. -/
def figRisk (df : Table) : Option (List (String × Nat)) :=
  match findColumn "risk" df.cols with
  | some name =>
      some (valueCounts
        ((columnAt (df.cols.indexOf name) df.rows).map fillUnknown))
  | none => none

/-- The hazard × control cross-tabulation of lines 188-189:
co-occurrence counts of the two columns, nulls mapped to "Unknown". -/
def crosstabHC (df : Table) : Option (List ((String × String) × Nat)) :=
  match findColumn "hazard" df.cols, findColumn "control" df.cols with
  | some h, some c =>
      some (valueCounts
        (List.zip ((columnAt (df.cols.indexOf h) df.rows).map fillUnknown)
          ((columnAt (df.cols.indexOf c) df.rows).map fillUnknown)))
  | _, _ => none

/-- The shape of the chart handed to the PDF export. -/
inductive ChartData where
  | bar (counts : List (String × Nat)) (title : String)
  | pie (counts : List (String × Nat)) (title : String)
  | scatter (title : String)
deriving DecidableEq

/-- The PDF chart selection of lines 156-167: division bar chart if a
division column is bound, else risk pie chart, else a placeholder. -/
def chartFig (df : Table) : ChartData :=
  match findColumn "division" df.cols with
  | some name =>
      .bar (valueCounts
        ((columnAt (df.cols.indexOf name) df.rows).map fillUnknown))
        "JHAs by Division"
  | none =>
      match findColumn "risk" df.cols with
      | some name =>
          .pie (valueCounts
            ((columnAt (df.cols.indexOf name) df.rows).map fillUnknown))
            "JHAs by Risk Level"
      | none => .scatter "No chart available"

/-- The dashboard panel of lines 172-191: although the filtered table is
in scope, every chart is computed from the full sheet `df`. -/
def dashboardView (df : Table) (cr : Criteria) :
    Option (List (String × Nat)) × Option (List (String × Nat))
      × Option (List ((String × String) × Nat)) × ChartData :=
  let _filtered := filterEngine cr df
  (figDiv df, figRisk df, crosstabHC df, chartFig df)

/-- Models Python `sep.join(parts)`. -/
def sepJoin (sep : String) : List String → String
  | [] => ""
  | [x] => x
  | x :: y :: xs => x ++ sep ++ sepJoin sep (y :: xs)

/-- One PDF text row, line 70:
`" | ".join([f"{k}: {str(v)[:80]}" for k, v in r.items()])` — every value
string-rendered and truncated to 80 characters. -/
def rowText (r : List (String × Cell)) : String :=
  sepJoin " | " (r.map (fun kv => kv.1 ++ ": " ++ (strOfCell kv.2).take 80))

/-- Line 71: `[text[j:j+200] for j in range(0, len(text), 200)]` — wrap a
row's text into 200-character lines (an empty text yields no lines). -/
def wrap200 (s : String) : List String :=
  (List.range ((s.length + 199) / 200)).map
    (fun k => String.mk ((s.data.drop (200 * k)).take 200))

/-- Line 68: `rows = df_rows if len(df_rows) <= 50 else df_rows[:50]`,
then each kept row rendered by `rowText`. -/
def pdfRowTexts (records : List (List (String × Cell))) : List String :=
  (if records.length ≤ 50 then records else records.take 50).map rowText

/-- The produced PDF document: title line, optional embedded chart image,
and the wrapped row-text lines, in drawing order. -/
structure PdfDoc where
  title : String
  image : Option Nat
  textLines : List String
deriving DecidableEq

/-- Models `make_pdf_report` (lines 45-81).  `chartRender` is the outcome
of `chart_fig.to_image(...)`: the `try/except` maps a failure to `None`
(`img_bytes = None`), so the image is omitted and the report continues. -/
def makePdfReport (title : String) (chartRender : Except String Nat)
    (records : List (List (String × Cell))) : PdfDoc :=
  let img : Option Nat :=
    match chartRender with
    | .ok b => some b
    | .error _ => none
  { title := title
    image := img
    textLines := (pdfRowTexts records).flatMap wrap200 }

/-- What the row-detail panel shows. -/
inductive RowDetail where
  | noRows
  | shown (r : Row)
deriving DecidableEq

/-- Models lines 141-146: with no filtered rows an explicit message is
shown; otherwise the number-input widget clamps the requested index into
`[0, max(0, len(filtered) - 1)]` and `filtered.iloc[idx]` is shown. -/
def rowDetails (filtered : Table) (req : Nat) : RowDetail :=
  if filtered.rows.length = 0 then .noRows
  else
    .shown (filtered.rows.getD (min req (max 0 (filtered.rows.length - 1))) [])

theorem eqFilter_sublist (colOpt : Option String) (sel : String)
    (cols : List String) (rows : List Row) :
    (eqFilter colOpt sel cols rows).Sublist rows := by
  cases colOpt with
  | none => exact List.Sublist.refl _
  | some name =>
    by_cases hs : sel ≠ "All"
    · simp only [eqFilter, if_pos hs]
      exact List.filter_sublist _
    · simp only [eqFilter, if_neg hs]
      exact List.Sublist.refl _

theorem queryFilter_sublist (search : String) (rows : List Row) :
    (queryFilter search rows).Sublist rows := by
  by_cases hs : search ≠ ""
  · simp only [queryFilter, if_pos hs]
    exact List.filter_sublist _
  · simp only [queryFilter, if_neg hs]
    exact List.Sublist.refl _

theorem filterEngine_rows_sublist (cr : Criteria) (t : Table) :
    (filterEngine cr t).rows.Sublist t.rows :=
  ((queryFilter_sublist _ _).trans (eqFilter_sublist _ _ _ _)).trans
    (eqFilter_sublist _ _ _ _)

theorem eqFilter_eq_self (colOpt : Option String) (sel : String)
    (cols : List String) (m l : List Row)
    (h : ∀ a ∈ l, a ∈ eqFilter colOpt sel cols m) :
    eqFilter colOpt sel cols l = l := by
  cases colOpt with
  | none => rfl
  | some name =>
    by_cases hs : sel ≠ "All"
    · simp only [eqFilter, if_pos hs] at h ⊢
      exact List.filter_eq_self.mpr fun a ha => (List.mem_filter.mp (h a ha)).2
    · simp only [eqFilter, if_neg hs]

theorem queryFilter_eq_self (search : String) (m l : List Row)
    (h : ∀ a ∈ l, a ∈ queryFilter search m) :
    queryFilter search l = l := by
  by_cases hs : search ≠ ""
  · simp only [queryFilter, if_pos hs] at h ⊢
    exact List.filter_eq_self.mpr fun a ha => (List.mem_filter.mp (h a ha)).2
  · simp only [queryFilter, if_neg hs]

theorem ffillAux_getD_none (l : List Cell) : ∀ (last : Cell) (n : Nat),
    n < l.length → (ffillAux last l).getD n none = none →
    last = none ∧ ∀ j, j ≤ n → (ffillAux last l).getD j none = none := by
  induction l with
  | nil =>
    intro last n hn
    simp at hn
  | cons c rest ih =>
    intro last n hn hnone
    cases c with
    | some v =>
      cases n with
      | zero => simp [ffillAux] at hnone
      | succ m =>
        have hrec := ih (some v) m (by simpa using hn)
          (by simpa [ffillAux] using hnone)
        exact absurd hrec.1 (by simp)
    | none =>
      cases n with
      | zero =>
        have hlast : last = none := by simpa [ffillAux] using hnone
        refine ⟨hlast, ?_⟩
        intro j hj
        have hj0 : j = 0 := Nat.le_zero.mp hj
        subst hj0
        simp [ffillAux, hlast]
      | succ m =>
        have hrec := ih last m (by simpa using hn)
          (by simpa [ffillAux] using hnone)
        refine ⟨hrec.1, ?_⟩
        intro j hj
        cases j with
        | zero => simp [ffillAux, hrec.1]
        | succ i =>
          simpa [ffillAux] using hrec.2 i (Nat.le_of_succ_le_succ hj)

theorem ffillAux_length (l : List Cell) : ∀ last : Cell,
    (ffillAux last l).length = l.length := by
  induction l with
  | nil => intro last; rfl
  | cons c rest ih =>
    intro last
    cases c <;> simp [ffillAux, ih]

theorem getD_set_self {α : Type} (r : List α) : ∀ (i : Nat) (v d : α),
    i < r.length → (r.set i v).getD i d = v := by
  induction r with
  | nil => intro i v d h; simp at h
  | cons a as ih =>
    intro i v d h
    cases i with
    | zero => rfl
    | succ j => simpa [List.set] using ih j v d (by simpa using h)

theorem columnAt_setColumnAt (i : Nat) (rows : List Row) :
    ∀ vals : List Cell, vals.length = rows.length →
    (∀ r ∈ rows, i < r.length) →
    columnAt i (setColumnAt i vals rows) = vals := by
  induction rows with
  | nil =>
    intro vals h _
    rw [List.length_nil, List.length_eq_zero] at h
    subst h
    rfl
  | cons r rs ih =>
    intro vals h hlen
    cases vals with
    | nil => simp at h
    | cons v vs =>
      simp only [setColumnAt, List.zipWith_cons_cons, columnAt, List.map_cons]
      refine congrArg₂ List.cons ?_ ?_
      · exact getD_set_self r i v none (hlen r (List.mem_cons_self r rs))
      · exact ih vs (by simpa using h) fun x hx => hlen x (List.mem_cons_of_mem r hx)

theorem length_columnAt (i : Nat) (rows : List Row) :
    (columnAt i rows).length = rows.length :=
  List.length_map _ _

theorem insertDesc_perm {α : Type} (x : α × Nat) (l : List (α × Nat)) :
    (insertDesc x l).Perm (x :: l) := by
  induction l with
  | nil => exact List.Perm.refl _
  | cons y ys ih =>
    by_cases h : y.2 < x.2
    · simp only [insertDesc, if_pos h]
      exact List.Perm.refl _
    · simp only [insertDesc, if_neg h]
      exact (ih.cons y).trans (List.Perm.swap x y ys)

theorem sortByCountDesc_perm {α : Type} (l : List (α × Nat)) :
    (sortByCountDesc l).Perm l := by
  induction l with
  | nil => exact List.Perm.refl _
  | cons x xs ih => exact (insertDesc_perm x (sortByCountDesc xs)).trans (ih.cons x)

theorem valueCounts_sum {α : Type} [DecidableEq α] (l : List α) :
    ((valueCounts l).map Prod.snd).sum = l.length := by
  have hperm := (sortByCountDesc_perm (l.dedup.map fun v => (v, l.count v))).map Prod.snd
  rw [valueCounts, hperm.sum_eq, List.map_map]
  simpa [Function.comp] using List.sum_map_count_dedup_eq_length l

theorem length_le_of_mem_wrap200 {s x : String} (h : x ∈ wrap200 s) :
    x.length ≤ 200 := by
  simp only [wrap200, List.mem_map, List.mem_range] at h
  obtain ⟨k, -, rfl⟩ := h
  show ((s.data.drop (200 * k)).take 200).length ≤ 200
  rw [List.length_take]
  exact Nat.min_le_left _ _

/-! ### Claim theorems -/

/-- C1: for every table and every filter criteria the Filter Engine's
output has at most as many rows as the input table, and applying a
further filter stage (any predicate) to the output never increases the
row count. -/
theorem C1_filter_narrowing (t : Table) (cr : Criteria) (p : Row → Bool) :
    (filterEngine cr t).rows.length ≤ t.rows.length ∧
    ((filterEngine cr t).rows.filter p).length ≤ (filterEngine cr t).rows.length :=
  ⟨(filterEngine_rows_sublist cr t).length_le, List.length_filter_le p _⟩

/-- C2: the Filter Engine is idempotent — re-applying the same criteria
to its own output returns that output unchanged. -/
theorem C2_filter_idempotent (cr : Criteria) (t : Table) :
    filterEngine cr (filterEngine cr t) = filterEngine cr t := by
  apply congrArg (Table.mk t.cols)
  show queryFilter cr.query
      (eqFilter (findColumn "risk" t.cols) cr.selRisk t.cols
        (eqFilter (findColumn "division" t.cols) cr.selDiv t.cols
          (filterEngine cr t).rows))
    = (filterEngine cr t).rows
  have hmem1 : ∀ a ∈ (filterEngine cr t).rows,
      a ∈ eqFilter (findColumn "division" t.cols) cr.selDiv t.cols t.rows :=
    fun a ha =>
      ((queryFilter_sublist _ _).trans (eqFilter_sublist _ _ _ _)).subset ha
  have hmem2 : ∀ a ∈ (filterEngine cr t).rows,
      a ∈ eqFilter (findColumn "risk" t.cols) cr.selRisk t.cols
        (eqFilter (findColumn "division" t.cols) cr.selDiv t.cols t.rows) :=
    fun a ha => (queryFilter_sublist _ _).subset ha
  rw [eqFilter_eq_self _ _ _ _ _ hmem1, eqFilter_eq_self _ _ _ _ _ hmem2]
  exact queryFilter_eq_self cr.query _ _ fun a ha => ha

/-- C10: the identity criteria — division "All", risk "All", empty query
— return the table unchanged; the empty query is treated as no query. -/
theorem C10_identity_criteria (t : Table) :
    filterEngine ⟨"All", "All", ""⟩ t = t := by
  cases h1 : findColumn "division" t.cols <;>
    cases h2 : findColumn "risk" t.cols <;>
      simp [filterEngine, h1, h2, eqFilter, queryFilter]

/-- C4: the Workbook Loader forward-fills the detected division column —
the normalized sheet's division column is exactly the forward-fill of the
original one; a forward-filled column has no blank cell unless every
preceding cell is also blank; and `[A, null, B, null, null]` becomes
`[A, A, B, B, B]`. -/
theorem C4_forward_fill :
    (∀ (t : Table) (name : String),
        findColumn "division" (t.cols.map strTrim) = some name →
        (∀ r ∈ t.rows, (t.cols.map strTrim).indexOf name < r.length) →
        columnAt ((t.cols.map strTrim).indexOf name) (normalizeSheet t).rows
          = ffill (columnAt ((t.cols.map strTrim).indexOf name) t.rows)) ∧
    (∀ (l : List Cell) (n : Nat), n < l.length →
        (ffill l).getD n none = none →
        ∀ j, j ≤ n → (ffill l).getD j none = none) ∧
    ffill [some "A", none, some "B", none, none]
      = [some "A", some "A", some "B", some "B", some "B"] := by
  refine ⟨?_, ?_, by decide⟩
  · intro t name hfind hwide
    simp only [normalizeSheet, hfind]
    apply columnAt_setColumnAt
    · rw [ffill, ffillAux_length, length_columnAt]
    · exact hwide
  · intro l n hn hnone j hj
    exact (ffillAux_getD_none l none n hn hnone).2 j hj

/-- C4 witness: the normalized-column equation at a concrete two-row
sheet and the no-blank-after-value invariant at a concrete column. -/
theorem C4_forward_fill_witness :
    columnAt 0 (normalizeSheet
      ⟨["Division", "Item"], [[none, some "x"], [some "A", some "y"]]⟩).rows
      = ffill [none, some "A"] ∧
    (ffill [none, none, some "B"]).getD 0 none = none := by
  constructor
  · have h := C4_forward_fill.1
      ⟨["Division", "Item"], [[none, some "x"], [some "A", some "y"]]⟩
      "Division" (by decide) (by decide)
    simpa using h
  · exact C4_forward_fill.2.1 [none, none, some "B"] 1 (by decide) (by decide)
      0 (by decide)

/-- C5: the dashboard charts and the PDF chart are computed from the full
unfiltered sheet, so they are identical under any two filter criteria;
moreover the division chart's counts total the full sheet's row count. -/
theorem C5_charts_unfiltered (df : Table) (cr1 cr2 : Criteria) :
    dashboardView df cr1 = dashboardView df cr2 ∧
    (∀ counts, figDiv df = some counts →
      (counts.map Prod.snd).sum = df.rows.length) := by
  refine ⟨rfl, ?_⟩
  intro counts h
  cases hf : findColumn "division" df.cols with
  | none => simp [figDiv, hf] at h
  | some name =>
    simp only [figDiv, hf, Option.some.injEq] at h
    subst h
    rw [valueCounts_sum, List.length_map, length_columnAt]

/-- C5 witness: a concrete sheet with three rows under two different
criteria; the division counts total 3. -/
theorem C5_charts_unfiltered_witness :
    dashboardView ⟨["Division"], [[some "A"], [none], [some "A"]]⟩ ⟨"A", "All", ""⟩
      = dashboardView ⟨["Division"], [[some "A"], [none], [some "A"]]⟩
          ⟨"All", "All", "z"⟩ ∧
    (([("A", 2), ("Unknown", 1)] : List (String × Nat)).map Prod.snd).sum = 3 := by
  constructor
  · exact (C5_charts_unfiltered ⟨["Division"], [[some "A"], [none], [some "A"]]⟩
      ⟨"A", "All", ""⟩ ⟨"All", "All", "z"⟩).1
  · have h := (C5_charts_unfiltered ⟨["Division"], [[some "A"], [none], [some "A"]]⟩
      ⟨"A", "All", ""⟩ ⟨"All", "All", "z"⟩).2 [("A", 2), ("Unknown", 1)] (by decide)
    exact h

/-- C6: with a bound division column and a selection other than "All"
(risk "All", empty query), the Filter Engine keeps exactly the rows whose
division cell string-renders to the selection, as an order-preserving
sublist of the source rows. -/
theorem C6_division_filter (t : Table) (name sel : String)
    (hcol : findColumn "division" t.cols = some name)
    (hsel : sel ≠ "All") :
    (filterEngine ⟨sel, "All", ""⟩ t).rows
        = t.rows.filter (fun r => strOfCell (cellAt t.cols name r) == sel) ∧
    (∀ r, r ∈ (filterEngine ⟨sel, "All", ""⟩ t).rows ↔
        r ∈ t.rows ∧ strOfCell (cellAt t.cols name r) = sel) ∧
    (filterEngine ⟨sel, "All", ""⟩ t).rows.Sublist t.rows := by
  have hrows : (filterEngine ⟨sel, "All", ""⟩ t).rows
      = t.rows.filter (fun r => strOfCell (cellAt t.cols name r) == sel) := by
    cases h2 : findColumn "risk" t.cols <;>
      simp [filterEngine, hcol, h2, eqFilter, queryFilter, hsel]
  refine ⟨hrows, ?_, ?_⟩
  · intro r
    rw [hrows, List.mem_filter]
    simp [beq_iff_eq]
  · rw [hrows]
    exact List.filter_sublist _

/-- C6 witness: the spec's scenario — selecting division "A" on a sheet
with three "A" rows and two "B" rows yields exactly the three "A" rows in
their original order. -/
theorem C6_division_filter_witness :
    (filterEngine ⟨"A", "All", ""⟩
      ⟨["Division", "Item"],
        [[some "A", some "r1"], [some "B", some "r2"], [some "A", some "r3"],
         [some "B", some "r4"], [some "A", some "r5"]]⟩).rows
      = [[some "A", some "r1"], [some "A", some "r3"], [some "A", some "r5"]] := by
  rw [(C6_division_filter
    ⟨["Division", "Item"],
      [[some "A", some "r1"], [some "B", some "r2"], [some "A", some "r3"],
       [some "B", some "r4"], [some "A", some "r5"]]⟩
    "Division" "A" (by decide) (by decide)).1]
  decide

/-- C7: the PDF row dump renders exactly the first 50 filtered rows (all
of them when fewer), every drawn line is at most 200 characters, and with
zero filtered rows the document keeps its title but has no row text. -/
theorem C7_pdf_text_dump (title : String) (chartRender : Except String Nat)
    (records : List (List (String × Cell))) :
    pdfRowTexts records = (records.take 50).map rowText ∧
    (pdfRowTexts records).length = min records.length 50 ∧
    (makePdfReport title chartRender records).textLines
      = (pdfRowTexts records).flatMap wrap200 ∧
    (∀ x ∈ (makePdfReport title chartRender records).textLines, x.length ≤ 200) ∧
    (records = [] →
      (makePdfReport title chartRender records).textLines = [] ∧
      (makePdfReport title chartRender records).title = title) := by
  have htake : pdfRowTexts records = (records.take 50).map rowText := by
    unfold pdfRowTexts
    by_cases h : records.length ≤ 50
    · rw [if_pos h, List.take_of_length_le h]
    · rw [if_neg h]
  refine ⟨htake, ?_, rfl, ?_, ?_⟩
  · rw [htake, List.length_map, List.length_take, Nat.min_comm]
  · intro x hx
    simp only [makePdfReport, List.mem_flatMap] at hx
    obtain ⟨s, -, hxs⟩ := hx
    exact length_le_of_mem_wrap200 hxs
  · intro h
    subst h
    exact ⟨rfl, rfl⟩

/-- C7 witness: 120 records yield exactly 50 rendered rows, and an empty
result yields an empty text section. -/
theorem C7_pdf_text_dump_witness :
    (pdfRowTexts (List.replicate 120 [("c", (some "v" : Cell))])).length = 50 ∧
    (makePdfReport "T" (Except.ok 0) []).textLines = [] := by
  constructor
  · have h := (C7_pdf_text_dump "T" (Except.ok 0)
      (List.replicate 120 [("c", some "v")])).2.1
    simpa using h
  · exact ((C7_pdf_text_dump "T" (Except.ok 0) []).2.2.2.2 rfl).1

/-- C8: when chart-to-image conversion fails, the PDF is still produced:
the image is omitted while the title and the row-text dump are exactly
what a successful conversion would have produced. -/
theorem C8_chart_failure_recovery (title e : String) (b : Nat)
    (records : List (List (String × Cell))) :
    (makePdfReport title (Except.error e) records).image = none ∧
    (makePdfReport title (Except.error e) records).title = title ∧
    (makePdfReport title (Except.error e) records).textLines
      = (makePdfReport title (Except.ok b) records).textLines :=
  ⟨rfl, rfl, rfl⟩

/-- C9: with zero filtered rows the row-detail view is the explicit
no-rows state; otherwise the effective index is clamped below the row
count, so the lookup lands on an actual row of the filtered table. -/
theorem C9_row_details (t : Table) (req : Nat) :
    (t.rows.length = 0 → rowDetails t req = .noRows) ∧
    (0 < t.rows.length →
      min req (max 0 (t.rows.length - 1)) < t.rows.length ∧
      ∃ r ∈ t.rows, rowDetails t req = .shown r) := by
  constructor
  · intro h
    simp [rowDetails, h]
  · intro h
    have hlt : min req (max 0 (t.rows.length - 1)) < t.rows.length :=
      lt_of_le_of_lt (le_trans (Nat.min_le_right _ _)
        (le_of_eq (Nat.zero_max _))) (Nat.sub_lt h Nat.one_pos)
    refine ⟨hlt, t.rows.getD (min req (max 0 (t.rows.length - 1))) [], ?_, ?_⟩
    · rw [List.getD_eq_getElem _ _ hlt]
      exact List.getElem_mem hlt
    · simp [rowDetails, Nat.pos_iff_ne_zero.mp h]

/-- C9 witness: an empty filtered table shows the no-rows state; a
two-row table with requested index 5 still shows one of its rows. -/
theorem C9_row_details_witness :
    rowDetails ⟨["A"], []⟩ 0 = .noRows ∧
    ∃ r ∈ ([[some "x"], [some "y"]] : List Row),
      rowDetails ⟨["A"], [[some "x"], [some "y"]]⟩ 5 = .shown r := by
  constructor
  · exact (C9_row_details ⟨["A"], []⟩ 0).1 rfl
  · exact ((C9_row_details ⟨["A"], [[some "x"], [some "y"]]⟩ 5).2 (by decide)).2

